import Mathlib

/-!
Verification development for the morgan PyPI-mirroring engine
(`morgan/__init__.py`, `morgan/utils.py`).

The Python code is shallowly embedded: pure helpers become Lean functions,
file-system and network effects become explicit state passing over a
functional store, and raised exceptions become `Except` errors.  The
`packaging` library calls used by the source (version parsing, specifier
sets, requirement rendering) are modelled for the release-only version
grammar (`N(.N)*`) that the mirrored configuration values and wheel tags
use; pre/post/dev/local release segments never occur in those inputs.
Regular expressions compiled from configuration (`platform_tag`) are
modelled as opaque full-match predicates `String → Bool`.
-/

namespace Morgan

/-! ### Character / string helpers -/

/-- Numeric value of a list of ASCII digit characters (base 10). -/
def digitsToNat (cs : List Char) : Nat :=
  cs.foldl (fun a c => a * 10 + (c.toNat - 48)) 0

/-- Split a character list on a separator character (like `str.split(sep)`). -/
def splitOnChar (sep : Char) : List Char → List (List Char)
  | [] => [[]]
  | c :: rest =>
    match splitOnChar sep rest with
    | [] => [[]]
    | g :: gs => if c == sep then [] :: g :: gs else (c :: g) :: gs

/-- ASCII whitespace test, enough for the specifier strings the index serves. -/
def isSpaceChar (c : Char) : Bool :=
  c == ' ' || c == '\t' || c == '\n' || c == '\r'

/-- Strip leading and trailing whitespace (like `str.strip()`). -/
def trimChars (cs : List Char) : List Char :=
  ((cs.dropWhile isSpaceChar).reverse.dropWhile isSpaceChar).reverse

/-- `python`'s `str.isdigit()` for the ASCII strings that occur here:
nonempty and all characters are decimal digits. -/
def isdigitStr (s : String) : Bool :=
  s.data ≠ [] && s.data.all Char.isDigit

/-- Does `pre` occur as a prefix of `cs`? -/
def prefixAt : List Char → List Char → Bool
  | [], _ => true
  | _ :: _, [] => false
  | p :: ps, c :: cs => p == c && prefixAt ps cs

/-- Substring test, `pat in s` of Python. -/
def hasSub (cs pat : List Char) : Bool :=
  match cs with
  | [] => pat.isEmpty
  | _ :: rest => prefixAt pat cs || hasSub rest pat

def strContains (s pat : String) : Bool := hasSub s.data pat.data

/-! ### PEP 440 versions (release-only fragment)

`packaging.version.Version` restricted to the `N(.N)*` release grammar.
Comparison pads the shorter release tuple with zeros, exactly as the
release component of `packaging`'s ordering does. -/

/-- Parse a release-only version string (`"3"`, `"3.11"`, `"3.11.2"`). -/
def parseVersion (s : String) : Option (List Nat) :=
  let t := trimChars s.data
  let parts := splitOnChar '.' t
  if parts.all (fun p => p ≠ [] && p.all Char.isDigit) then
    some (parts.map digitsToNat)
  else none

/-- Are all remaining release segments zero? -/
def allZero : List Nat → Bool
  | [] => true
  | a :: as_ => a == 0 && allZero as_

/-- Compare two release tuples, padding the shorter one with zeros. -/
def verCmp : List Nat → List Nat → Ordering
  | [], bs => if allZero bs then Ordering.eq else Ordering.lt
  | a :: as_, [] => if allZero (a :: as_) then Ordering.eq else Ordering.gt
  | a :: as_, b :: bs =>
    if a < b then Ordering.lt
    else if b < a then Ordering.gt
    else verCmp as_ bs

def verEq (a b : List Nat) : Bool := verCmp a b == Ordering.eq
def verLe (a b : List Nat) : Bool := verCmp a b != Ordering.gt
def verGe (a b : List Nat) : Bool := verCmp a b != Ordering.lt

/-- Canonical rendering of a release tuple, `str(Version(...))`. -/
def verRender (v : List Nat) : String :=
  String.intercalate "." (v.map toString)

/-! ### Specifier sets (`packaging.specifiers.SpecifierSet`) -/

inductive SpecOp where
  | eq | ne | le | ge | lt | gt | compat
deriving DecidableEq, Repr

/-- One version specifier.  `arb` is the `===` arbitrary-equality operator,
which keeps its right-hand side as raw text. -/
inductive Spec where
  | cmp (op : SpecOp) (ver : List Nat)
  | arb (raw : String)
deriving DecidableEq, Repr

/-- Parse one comma-separated piece of a specifier set (already trimmed,
nonempty).  Returns `none` on `InvalidSpecifier`. -/
def parseSpec (cs : List Char) : Option Spec :=
  let parseAfter (op : SpecOp) (rest : List Char) : Option Spec :=
    match parseVersion (String.mk rest) with
    | none => none
    | some v =>
      if op == SpecOp.compat && v.length < 2 then none else some (Spec.cmp op v)
  match cs with
  | '=' :: '=' :: '=' :: rest =>
    let r := trimChars rest
    if r == [] then none else some (Spec.arb (String.mk r))
  | '=' :: '=' :: rest => parseAfter SpecOp.eq rest
  | '!' :: '=' :: rest => parseAfter SpecOp.ne rest
  | '<' :: '=' :: rest => parseAfter SpecOp.le rest
  | '>' :: '=' :: rest => parseAfter SpecOp.ge rest
  | '~' :: '=' :: rest => parseAfter SpecOp.compat rest
  | '<' :: rest => parseAfter SpecOp.lt rest
  | '>' :: rest => parseAfter SpecOp.gt rest
  | _ => none

/-- Parse a whole specifier set: split on commas, strip, drop empty pieces.
`none` models `packaging.specifiers.InvalidSpecifier`. -/
def parseSpecSet (s : String) : Option (List Spec) :=
  let pieces := (splitOnChar ',' s.data).map trimChars |>.filter (· ≠ [])
  pieces.mapM parseSpec

/-- Truncate/pad a release tuple to length `k` (used by `~=`). -/
def padTake (v : List Nat) (k : Nat) : List Nat :=
  (v ++ List.replicate k 0).take k

/-- `specifier.contains(version)` for a parsed release-only version. -/
def specContains (sp : Spec) (v : List Nat) : Bool :=
  match sp with
  | Spec.cmp SpecOp.eq w => verEq v w
  | Spec.cmp SpecOp.ne w => !verEq v w
  | Spec.cmp SpecOp.le w => verLe v w
  | Spec.cmp SpecOp.ge w => verGe v w
  | Spec.cmp SpecOp.lt w => verCmp v w == Ordering.lt
  | Spec.cmp SpecOp.gt w => verCmp v w == Ordering.gt
  | Spec.cmp SpecOp.compat w => verGe v w && padTake v (w.length - 1) == w.take (w.length - 1)
  | Spec.arb raw => verRender v == raw

/-- `SpecifierSet.contains`: conjunction over all member specifiers. -/
def specSetContains (ss : List Spec) (v : List Nat) : Bool :=
  ss.all (fun sp => specContains sp v)

/-! ### `parse_interpreter` (morgan/__init__.py)

`re.fullmatch(r"^([^\d]+)(?:(\d)(?:[._])?(\d+)?)$", inp)`: a nonempty
run of non-digits, one digit (the major), an optional `.`/`_` separator
and an optional run of digits (the minor).  On a match the version is
rendered `"<major>"` or `"<major>.<minor>"`; otherwise `(inp, None)`. -/

def parse_interpreter (inp : String) : String × Option String :=
  let cs := inp.data
  let name := cs.takeWhile (fun c => !c.isDigit)
  let rest := cs.dropWhile (fun c => !c.isDigit)
  if name == [] then (inp, none) else
  match rest with
  | [] => (inp, none)
  | d :: rest2 =>
    match rest2 with
    | [] => (String.mk name, some (String.mk [d]))
    | sep :: rest3 =>
      if sep == '.' || sep == '_' then
        if rest3 == [] then (String.mk name, some (String.mk [d]))
        else if rest3.all Char.isDigit then
          (String.mk name, some (String.mk (d :: '.' :: rest3)))
        else (inp, none)
      else if (sep :: rest3).all Char.isDigit then
        (String.mk name, some (String.mk (d :: '.' :: sep :: rest3)))
      else (inp, none)

/-! ### File records and environment matching -/

/-- One wheel compatibility tag (`packaging.tags.Tag`). -/
structure Tag where
  interpreter : String
  abi : String
  platform : String
deriving DecidableEq, Repr

/-- One enriched entry of the index file listing (§3 FileRecord).
`version` is the parsed release tuple; `tags` is `None` for sdists. -/
structure FileRec where
  filename : String
  requiresPython : Option String
  tags : Option (List Tag)
  isWheel : Bool
  version : List Nat
  hashes : List (String × String)
  url : String
  uploadTime : Option Nat
deriving DecidableEq, Repr

/-- A configured platform regex, modelled as its `fullmatch` predicate. -/
abbrev Plat := String → Bool

/-- `re.sub(r"([0-9])\.?\*", r"\1", req)`: drop a `*` (with optional
preceding dot) that follows a digit, at every non-overlapping occurrence. -/
def starRepairAux : List Char → List Char
  | [] => []
  | c :: '.' :: '*' :: rest =>
    if c.isDigit then c :: starRepairAux rest
    else c :: '.' :: '*' :: starRepairAux rest
  | c :: '*' :: rest =>
    if c.isDigit then c :: starRepairAux rest
    else c :: '*' :: starRepairAux rest
  | c :: rest => c :: starRepairAux rest

def starRepair (s : String) : String := String.mk (starRepairAux s.data)

/-- The `requires-python` loop of `_matches_environments`: every configured
Python version must be contained.  An unparseable configured version makes
`SpecifierSet.contains` raise `InvalidVersion`, which the source does not
catch there. -/
def pyLoop (ss : List Spec) : List String → Except String Bool
  | [] => Except.ok true
  | v :: vs =>
    match parseVersion v with
    | none => Except.error ("InvalidVersion: " ++ v)
    | some pv =>
      if specSetContains ss pv then pyLoop ss vs else Except.ok false

/-- The `requires-python` gate of `_matches_environments` (lines 427-450):
falsy values pass, a bare integer is rewritten to `==N`, the
`([0-9])\.?\*` repair is applied, an invalid specifier rejects the file
(warning), and otherwise every supported Python version must be contained. -/
def reqPyCheck (o : Option String) (pyvs : List String) : Except String Bool :=
  match o with
  | none => Except.ok true
  | some req0 =>
    if req0 == "" then Except.ok true
    else
      let req1 := if isdigitStr req0 then "==" ++ req0 else req0
      let req2 := starRepair req1
      match parseSpecSet req2 with
      | none => Except.ok false
      | some ss => pyLoop ss pyvs

/-- `any(SpecifierSet(">=" + intrp_ver).contains(sp) for sp in pyvs)`,
with the generator's short-circuiting; an unparseable supported version
raises. `w` is the parsed tag-interpreter version. -/
def anyGe (w : List Nat) : List String → Except String Bool
  | [] => Except.ok false
  | v :: vs =>
    match parseVersion v with
    | none => Except.error ("InvalidVersion: " ++ v)
    | some pv => if verGe pv w then Except.ok true else anyGe w vs

/-- The tag loop of `_matches_environments` (lines 452-486).  A tag whose
interpreter is not `py`/`cp` is skipped; a `py`/`cp` tag without a version
raises `ValueError`; the version gate is bypassed when the version is
exactly `"3"`; platform `any` or a full regex match accepts the file. -/
def tagsLoop (pyvs : List String) (plats : List Plat) : List Tag → Except String Bool
  | [] => Except.ok false
  | t :: rest =>
    let pr := parse_interpreter t.interpreter
    if !(pr.1 == "py" || pr.1 == "cp") then tagsLoop pyvs plats rest
    else
      match pr.2 with
      | none => Except.error ("Unexpected interpreter tag " ++ t.interpreter)
      | some iv =>
        match parseVersion iv with
        | none => Except.error ("InvalidSpecifier: >=" ++ iv)
        | some w =>
          match anyGe w pyvs with
          | Except.error e => Except.error e
          | Except.ok matched =>
            if iv != "3" && !matched then tagsLoop pyvs plats rest
            else if t.platform == "any" then Except.ok true
            else if plats.any (fun p => p t.platform) then Except.ok true
            else tagsLoop pyvs plats rest

/-- `Mirrorer._matches_environments`. -/
def matches_environments (f : FileRec) (pyvs : List String) (plats : List Plat) :
    Except String Bool :=
  match reqPyCheck f.requiresPython pyvs with
  | Except.error e => Except.error e
  | Except.ok false => Except.ok false
  | Except.ok true =>
    match f.tags with
    | some ts => if ts.isEmpty then Except.ok true else tagsLoop pyvs plats ts
    | none => Except.ok true

/-! ### Wheel scoring (`_calculate_scores_for_wheel`) -/

/-- `Version(py_version).major * 100 + minor` for the version strings that
`parse_interpreter` emits (`"3"` or `"3.10"`); minor defaults to 0. -/
def pyScoreOfVersionStr (s : String) : Nat :=
  match parseVersion s with
  | some (a :: b :: _) => a * 100 + b
  | some [a] => a * 100
  | _ => 0

/-- One attempt of `re.search(r"[a-z]+_(\d+)_(\d+)", platform)` anchored at
the start of `cs`: a maximal nonempty run of lowercase letters, `_`, a
maximal nonempty digit run, `_`, a nonempty digit run. -/
def matchPlatAt (cs : List Char) : Option (Nat × Nat) :=
  let letters := cs.takeWhile Char.isLower
  let r1 := cs.dropWhile Char.isLower
  if letters == [] then none else
  match r1 with
  | '_' :: r2 =>
    let d1 := r2.takeWhile Char.isDigit
    let r3 := r2.dropWhile Char.isDigit
    if d1 == [] then none else
    match r3 with
    | '_' :: r4 =>
      let d2 := r4.takeWhile Char.isDigit
      if d2 == [] then none else some (digitsToNat d1, digitsToNat d2)
    | _ => none
  | _ => none

/-- Leftmost match of `[a-z]+_(\d+)_(\d+)` over the whole string. -/
def platSearch : List Char → Option (Nat × Nat)
  | [] => none
  | c :: rest =>
    match matchPlatAt (c :: rest) with
    | some ab => some ab
    | none => platSearch rest

/-- The platform component of the wheel score: `a*100 + b` from a
`..._<a>_<b>` segment, else the fixed manylinux fallbacks, else 0. -/
def platformScore (platform : String) : Nat :=
  match platSearch platform.data with
  | some (a, b) => a * 100 + b
  | none =>
    if strContains platform "manylinux2014" then 90
    else if strContains platform "manylinux2010" then 80
    else if strContains platform "manylinux1" then 70
    else 0

/-- Python's `max` on int pairs: lexicographic, first argument on ties. -/
def maxPair (a b : Nat × Nat) : Nat × Nat :=
  if a.1 < b.1 || (a.1 == b.1 && a.2 < b.2) then b else a

/-- The tag loop of `_calculate_scores_for_wheel`: tags whose interpreter is
not `cp`/`py`, or has no version, are skipped; others contribute
`(py_score, platform_score)` into a running lexicographic maximum. -/
def scoresLoop (best : Nat × Nat) : List Tag → Nat × Nat
  | [] => best
  | t :: ts =>
    let pr := parse_interpreter t.interpreter
    if !(pr.1 == "cp" || pr.1 == "py") then scoresLoop best ts
    else
      match pr.2 with
      | none => scoresLoop best ts
      | some pv =>
        scoresLoop (maxPair best (pyScoreOfVersionStr pv, platformScore t.platform)) ts

/-- `Mirrorer._calculate_scores_for_wheel`.  Non-wheels get the sentinel
`(int(1e10), int(1e10))`. -/
def calculate_scores_for_wheel (f : FileRec) : Nat × Nat :=
  if f.isWheel == false then (10000000000, 10000000000)
  else scoresLoop (0, 0) (f.tags.getD [])

/-- The wheel score as the specification states it: the lexicographic
maximum of the per-tag pairs, where only `cp`/`py` tags carrying a version
contribute, and sdists score `(10^10, 10^10)`. -/
def tagScoreContribution (t : Tag) : Option (Nat × Nat) :=
  let pr := parse_interpreter t.interpreter
  match pr.2 with
  | none => none
  | some pv =>
    if pr.1 == "cp" || pr.1 == "py" then
      some (pyScoreOfVersionStr pv, platformScore t.platform)
    else none

def wheelScoreSpec (f : FileRec) : Nat × Nat :=
  if f.isWheel then ((f.tags.getD []).filterMap tagScoreContribution).foldl maxPair (0, 0)
  else (10000000000, 10000000000)

/-! ### Stable descending sorts

Python's `list.sort` / `sorted` are stable; with `reverse=True` the result
is descending by key with ties kept in original order.  A stable insertion
sort reproduces that output exactly. -/

/-- Insert `x` after every element `y` with `le x y` (so, in a descending
list, after all elements with a key ≥ its own). -/
def insertDescLe (le : α → α → Bool) (x : α) : List α → List α
  | [] => [x]
  | y :: ys => if le x y then y :: insertDescLe le x ys else x :: y :: ys

def sortDescLe (le : α → α → Bool) (l : List α) : List α :=
  l.foldl (fun acc x => insertDescLe le x acc) []

/-- Lexicographic `≤` on score pairs (Python tuple comparison). -/
def pairLe (a b : Nat × Nat) : Bool :=
  a.1 < b.1 || (a.1 == b.1 && a.2 ≤ b.2)

/-! ### File selection (`_filter_files_by_environment` and helpers) -/

/-- `Mirrorer._group_files_by_version`: a `defaultdict(list)` keyed by the
parsed version (Python `Version` equality ignores trailing zeros), with
keys in first-appearance order. -/
def insertGroup : List (List Nat × List FileRec) → FileRec → List (List Nat × List FileRec)
  | [], f => [(f.version, [f])]
  | (v, fs) :: rest, f =>
    if verEq v f.version then (v, fs ++ [f]) :: rest
    else (v, fs) :: insertGroup rest f

def group_files_by_version (files : List FileRec) : List (List Nat × List FileRec) :=
  files.foldl insertGroup []

/-- `Mirrorer._find_first_matching_file_for_env`: the first file matching a
single `(python_version, platform_pattern)` environment cell. -/
def find_first_matching (v : String) (p : Plat) : List FileRec → Except String (Option FileRec)
  | [] => Except.ok none
  | f :: fs =>
    match matches_environments f [v] [p] with
    | Except.error e => Except.error e
    | Except.ok true => Except.ok (some f)
    | Except.ok false => find_first_matching v p fs

/-- The loop of `_select_best_files_for_version` over the
`python_version × platform` grid: per cell, append the first matching
sdist then the first matching wheel, skipping duplicates. -/
def selLoop (nonWheels wheels : List FileRec) :
    List (String × Plat) → List FileRec → Except String (List FileRec)
  | [], sel => Except.ok sel
  | (v, p) :: rest, sel =>
    match find_first_matching v p nonWheels with
    | Except.error e => Except.error e
    | Except.ok bnw =>
      let sel1 := match bnw with
        | some f => if sel.contains f then sel else sel ++ [f]
        | none => sel
      match find_first_matching v p wheels with
      | Except.error e => Except.error e
      | Except.ok bw =>
        let sel2 := match bw with
          | some f => if sel1.contains f then sel1 else sel1 ++ [f]
          | none => sel1
        selLoop nonWheels wheels rest sel2

/-- The `(python_version, platform)` grid, in the source's loop order. -/
def envPairs (pyvs : List String) (plats : List Plat) : List (String × Plat) :=
  pyvs.flatMap (fun v => plats.map (fun p => (v, p)))

/-- `Mirrorer._select_best_files_for_version`: wheels are sorted by score,
stably, descending, before the grid walk. -/
def select_best_files_for_version (pyvs : List String) (plats : List Plat)
    (versionFiles : List FileRec) : Except String (List FileRec) :=
  let wheels := versionFiles.filter (fun f => f.isWheel)
  let nonWheels := versionFiles.filter (fun f => !f.isWheel)
  let sortedWheels := sortDescLe
    (fun a b => pairLe (calculate_scores_for_wheel a) (calculate_scores_for_wheel b)) wheels
  selLoop nonWheels sortedWheels (envPairs pyvs plats) []

/-- The per-version-group loop of `_filter_files_by_environment`
(`selected_files.extend(best_files)` in first-appearance group order). -/
def groupsLoop (pyvs : List String) (plats : List Plat) :
    List (List Nat × List FileRec) → Except String (List FileRec)
  | [] => Except.ok []
  | (_, vfs) :: rest =>
    match select_best_files_for_version pyvs plats vfs with
    | Except.error e => Except.error e
    | Except.ok best =>
      match groupsLoop pyvs plats rest with
      | Except.error e => Except.error e
      | Except.ok more => Except.ok (best ++ more)

/-- `list(filter(...))` with an effectful predicate: the predicate runs
left to right and its exception aborts the filtering. -/
def filterME (p : α → Except ε Bool) : List α → Except ε (List α)
  | [] => Except.ok []
  | x :: xs =>
    match p x with
    | Except.error e => Except.error e
    | Except.ok b =>
      match filterME p xs with
      | Except.error e => Except.error e
      | Except.ok r => Except.ok (if b then x :: r else r)

/-- `Mirrorer._filter_files_by_environment`.  With `mirror_all_wheels` the
whole configured environment set is passed to `_matches_environments`;
otherwise the best files are picked per `(python_version, platform)` cell
and re-sorted by version, descending. -/
def filter_files_by_environment (mirrorAllWheels : Bool) (files : List FileRec)
    (pyvs : List String) (plats : List Plat) : Except String (List FileRec) :=
  if mirrorAllWheels then
    filterME (fun f => matches_environments f pyvs plats) files
  else
    match groupsLoop pyvs plats (group_files_by_version files) with
    | Except.error e => Except.error e
    | Except.ok sel =>
      Except.ok (sortDescLe (fun a b => verLe a.version b.version) sel)

/-- The requires-python acceptance relation as the specification words it:
after the bare-integer rewrite and the `(\d)\.?\*` repair, the resulting
specifier set contains the configured version. -/
def reqPyAccepts (o : Option String) (v : String) : Bool :=
  match o with
  | none => true
  | some r =>
    if r == "" then true
    else
      let r1 := if isdigitStr r then "==" ++ r else r
      match parseSpecSet (starRepair r1) with
      | none => false
      | some ss =>
        match parseVersion v with
        | none => false
        | some pv => specSetContains ss pv

/-! ### Requirements, markers and the processed-set cache (morgan/utils.py) -/

/-- An operator of a `packaging` version specifier as it appears inside a
`Requirement`; rendering is never empty. -/
inductive ReqOp where
  | lt | le | gt | ge | eq | ne | compat | arbEq
deriving DecidableEq, Repr

def ReqOp.render : ReqOp → String
  | ReqOp.lt => "<"
  | ReqOp.le => "<="
  | ReqOp.gt => ">"
  | ReqOp.ge => ">="
  | ReqOp.eq => "=="
  | ReqOp.ne => "!="
  | ReqOp.compat => "~="
  | ReqOp.arbEq => "==="

/-- A PEP 508 marker: its rendered text plus its evaluation function over a
marker environment (the `packaging.markers.Marker.evaluate` call is
delegated to the library, so it is modelled as an opaque evaluator). -/
structure Marker where
  text : String
  eval : List (String × String) → Bool

/-- A parsed, name-canonicalized `packaging.requirements.Requirement`. -/
structure Requirement where
  name : String
  extras : List String
  specifier : List (ReqOp × String)
  marker : Option Marker

/-- Rendering of the specifier list inside `str(req)`. -/
def renderSpecs : List (ReqOp × String) → String
  | [] => ""
  | [s] => s.1.render ++ s.2
  | s :: rest => s.1.render ++ s.2 ++ "," ++ renderSpecs rest

/-- `str(req)`: name, then `[extras]` when nonempty, then the specifiers,
then `"; <marker>"` when a marker is present. -/
def Requirement.render (r : Requirement) : String :=
  r.name
    ++ (if r.extras.isEmpty then "" else "[" ++ String.intercalate "," r.extras ++ "]")
    ++ renderSpecs r.specifier
    ++ (match r.marker with | none => "" | some m => "; " ++ m.text)

/-- `Cache.is_simple_case`: no marker, no extras, and either no specifier
or only `>` / `>=` operators. -/
def is_simple_case (r : Requirement) : Bool :=
  if r.marker.isNone && r.extras.isEmpty then
    if r.specifier.isEmpty then true
    else r.specifier.all (fun s => s.1 == ReqOp.gt || s.1 == ReqOp.ge)
  else false

/-- The key a requirement is stored under in the processed-set. -/
def cacheKey (r : Requirement) : String :=
  if is_simple_case r then r.name else r.render

/-- `morgan.utils.Cache`: a set of strings. -/
structure Cache where
  cache : List String

def Cache.check (c : Cache) (r : Requirement) : Bool :=
  if is_simple_case r then c.cache.contains r.name
  else c.cache.contains r.render

def Cache.add (c : Cache) (r : Requirement) : Cache :=
  if is_simple_case r then ⟨r.name :: c.cache⟩
  else ⟨r.render :: c.cache⟩

/-! ### `is_requirement_relevant` (morgan/utils.py lines 64-95) -/

/-- `dict.__setitem__` on an association list. -/
def assocSet (env : List (String × String)) (k v : String) : List (String × String) :=
  if env.any (fun kv => kv.1 == k) then
    env.map (fun kv => if kv.1 == k then (k, v) else kv)
  else env ++ [(k, v)]

/-- The per-environment copy: `setdefault("extra", "")`, then an override
with the comma-joined extras when a (truthy) extras set was given. -/
def prepEnv (env : List (String × String)) (extras : List String) : List (String × String) :=
  let e := if env.any (fun kv => kv.1 == "extra") then env else env ++ [("extra", "")]
  if extras.isEmpty then e else assocSet e "extra" (String.intercalate "," extras)

/-- `morgan.utils.is_requirement_relevant`: no marker → relevant; no
environments → relevant; otherwise the marker must evaluate true for at
least one environment. -/
def is_requirement_relevant (req : Requirement)
    (envs : List (List (String × String))) (extras : List String) : Bool :=
  match req.marker with
  | none => true
  | some m =>
    if envs.isEmpty then true
    else envs.any (fun env => m.eval (prepEnv env extras))

/-! ### File system, hashing and download (`_download_file`, `_hash_file`,
`touch_file`)

The on-disk state is a map from path to entry; downloaded bytes are
modelled as strings and the hash algorithm as an opaque function
`alg → content → hexdigest`. -/

structure FSEnt where
  content : String
  atime : Option Nat
  mtime : Option Nat
deriving DecidableEq, Repr

/-- The file-system state: path → entry. -/
abbrev FS := String → Option FSEnt

/-- `open(p, "wb"); write(c)`: create or truncate; timestamps are fresh
(the model leaves them unset until `os.utime` runs). -/
def fsWrite (fs : FS) (p : String) (c : String) : FS :=
  fun q => if q == p then some ⟨c, none, none⟩ else fs q

def fsRemove (fs : FS) (p : String) : FS :=
  fun q => if q == p then none else fs q

/-- `os.utime(p, (ts, ts))` on an existing path. -/
def fsUtime (fs : FS) (p : String) (ts : Nat) : FS :=
  fun q => if q == p then (fs q).map (fun e => ⟨e.content, some ts, some ts⟩) else fs q

/-- `morgan.utils.touch_file`: a falsy path or a missing `upload-time`
returns without touching; otherwise atime and mtime are set to the parsed
upload timestamp (`uploadTime` holds the already-parsed value). -/
def touch_file (fs : FS) (path : String) (f : FileRec) : FS :=
  match f.uploadTime with
  | none => fs
  | some ts => if path == "" then fs else fsUtime fs path ts

/-- `Mirrorer._hash_file`: read the file, hash it, write the
`<path>.hash` sidecar `"<alg>=<digest>"`, return the digest. -/
def hash_file (hash : String → String → String) (fs : FS) (filepath hashalg : String) :
    Except String (FS × String) :=
  match fs filepath with
  | none => Except.error ("No such file: " ++ filepath)
  | some ent =>
    let d := hash hashalg ent.content
    Except.ok (fsWrite fs (filepath ++ ".hash") (hashalg ++ "=" ++ d), d)

/-- The result of one `_download_file` call: the final file-system state,
whether an HTTP request was issued, and the raised error if any. -/
structure DLResult where
  fs : FS
  usedNet : Bool
  error : Option String

/-- The download half of `_download_file`: GET the URL, write the target,
hash it (writing the sidecar), delete the target and raise on a digest
mismatch, else stamp the upload time. -/
def dlFetch (hash : String → String → String) (net : String → Option String)
    (f : FileRec) (target hashalg exphash : String) (fs : FS) : DLResult :=
  match net f.url with
  | none => ⟨fs, true, some "HTTPError"⟩
  | some bs =>
    let fs1 := fsWrite fs target bs
    match hash_file hash fs1 target hashalg with
    | Except.error e => ⟨fs1, true, some e⟩
    | Except.ok (fs2, truehash) =>
      if truehash != exphash then
        ⟨fsRemove fs2 target, true,
          some ("Digest mismatch for " ++ f.filename ++ ". Deleting file " ++ target ++ ".")⟩
      else ⟨touch_file fs2 target f, true, none⟩

/-- `Mirrorer._download_file`: if the target exists and its hash matches
the declared digest, only re-stamp the upload time (no network); else
fetch and verify. -/
def download_file (hash : String → String → String) (net : String → Option String)
    (f : FileRec) (target hashalg : String) (fs : FS) : DLResult :=
  match f.hashes.find? (fun kv => kv.1 == hashalg) with
  | none => ⟨fs, false, some "KeyError"⟩
  | some kv =>
    let exphash := kv.2
    match fs target with
    | some _ =>
      match hash_file hash fs target hashalg with
      | Except.error e => ⟨fs, false, some e⟩
      | Except.ok (fs1, truehash) =>
        if truehash == exphash then ⟨touch_file fs1 target f, false, none⟩
        else dlFetch hash net f target hashalg exphash fs1
    | none => dlFetch hash net f target hashalg exphash fs

/-! ### Per-file processing and the per-release loop (`_process_file`,
`_mirror` lines 211-224) -/

/-- The hash-algorithm selection at the top of `_process_file`.  The
source reads `PREFERRED_HASH_ALG if PREFERRED_HASH_ALG in
fileinfo["hashes"] else fileinfo["hashes"].keys()[0]`; in Python 3
`dict_keys` is not subscriptable, so the fallback branch raises
`TypeError` instead of producing the first exposed algorithm. -/
def select_hashalg (hashes : List (String × String)) : Except String String :=
  if hashes.any (fun kv => kv.1 == "sha256") then Except.ok "sha256"
  else Except.error "TypeError: dict_keys object is not subscriptable"

/-- `Mirrorer._process_file` with the metadata extraction abstracted into
`depsOf` (the archive parser lives in `morgan/metadata.py`): pick the hash
algorithm, download, and on success emit the file's dependencies. -/
def process_file (hash : String → String → String) (net : String → Option String)
    (depsOf : FileRec → List String) (indexPath reqName : String)
    (f : FileRec) (fs : FS) : FS × Except String (List String) :=
  let filepath := indexPath ++ "/" ++ reqName ++ "/" ++ f.filename
  match select_hashalg f.hashes with
  | Except.error e => (fs, Except.error e)
  | Except.ok alg =>
    let r := download_file hash net f filepath alg fs
    match r.error with
    | some e => (r.fs, Except.error e)
    | none => (r.fs, Except.ok (depsOf f))

/-- The per-release file loop of `_mirror`: each file is processed inside
`try/except`; a failure is logged (counted here) and the loop continues
with the remaining files, accumulating the dependency dictionary. -/
def process_files (step : FileRec → FS → FS × Except String (List String)) :
    List FileRec → FS → FS × List String × Nat
  | [], fs => (fs, [], 0)
  | f :: rest, fs =>
    match step f fs with
    | (fs1, Except.ok ds) =>
      let r := process_files step rest fs1
      (r.1, ds ++ r.2.1, r.2.2)
    | (fs1, Except.error _) =>
      let r := process_files step rest fs1
      (r.1, r.2.1, r.2.2 + 1)

/-! ### The top-level `Mirrorer.mirror` (lines 93-120)

`_mirror` is abstracted as a function from a requirement name to either a
transport error or an optional dependency list.  The `try/except` around
the top-level call catches `urllib.error.HTTPError` — every HTTP status —
prints it and abandons the requirement; any other exception propagates.
Inside the breadth-first dependency loop there is no `try`, so every
error propagates there. -/

inductive NetErr where
  | http (code : Nat) (msg : String)
  | other (msg : String)
deriving DecidableEq, Repr

/-- The `while len(deps) > 0` loop; `fuel` bounds the number of rounds
(the source loops until the batch is empty). -/
def mirror_loop (m : String → Except NetErr (Option (List String))) :
    Nat → List String → Except NetErr Unit
  | _, [] => Except.ok ()
  | 0, _ :: _ => Except.ok ()
  | fuel + 1, deps =>
    match deps.foldlM (fun acc d =>
        match m d with
        | Except.error e => Except.error e
        | Except.ok none => Except.ok acc
        | Except.ok (some ds) => Except.ok (acc ++ ds)) ([] : List String) with
    | Except.error e => Except.error e
    | Except.ok next => mirror_loop m fuel next

/-- `Mirrorer.mirror`. -/
def Mirrorer.mirror (m : String → Except NetErr (Option (List String)))
    (fuel : Nat) (req : String) : Except NetErr Unit :=
  match m req with
  | Except.error (NetErr.http _ _) => Except.ok ()
  | Except.error e => Except.error e
  | Except.ok none => Except.ok ()
  | Except.ok (some deps) => mirror_loop m fuel deps

/-! ## Theorems -/

/-- The running-maximum loop equals a `foldl` of the per-tag contributions. -/
theorem scoresLoop_filterMap (ts : List Tag) : ∀ best : Nat × Nat,
    scoresLoop best ts = (ts.filterMap tagScoreContribution).foldl maxPair best := by
  induction ts with
  | nil => intro best; rfl
  | cons t ts ih =>
    intro best
    simp only [scoresLoop, tagScoreContribution, List.filterMap_cons]
    cases h2 : (parse_interpreter t.interpreter).2 with
    | none =>
      cases h1 : ((parse_interpreter t.interpreter).1 == "cp"
          || (parse_interpreter t.interpreter).1 == "py") <;>
        simp [h1, h2, ih]
    | some pv =>
      cases h1 : ((parse_interpreter t.interpreter).1 == "cp"
          || (parse_interpreter t.interpreter).1 == "py") <;>
        simp [h1, h2, ih]

/-- C3: every wheel's score is the lexicographic maximum over its tags of
`(py_score, platform_score)`, where only `cp`/`py` tags carrying an
interpreter version contribute (`py_score = 100*major + minor`,
`platform_score` from a `[a-z]+_<a>_<b>` segment with the manylinux
fallbacks 90/80/70, else 0), and every non-wheel scores exactly
`(10^10, 10^10)`. -/
theorem c3_wheel_score (f : FileRec) :
    calculate_scores_for_wheel f = wheelScoreSpec f := by
  unfold calculate_scores_for_wheel wheelScoreSpec
  cases hw : f.isWheel <;> simp [scoresLoop_filterMap]

/-- C8: a `requires-python` of the bare digit `"3"` is evaluated exactly as
the specifier `"==3"`; `">=3.6.*"` is evaluated exactly as `">=3.6"`; and a
string that is still an invalid specifier after the repairs makes the
filter reject the file (`ok false`, a logged warning) instead of raising. -/
theorem c8_requires_python_repair :
    ∀ (pyvs : List String) (plats : List Plat),
      (matches_environments ⟨"a.tar.gz", some "3", none, false, [], [], "", none⟩ pyvs plats
        = matches_environments ⟨"a.tar.gz", some "==3", none, false, [], [], "", none⟩ pyvs plats)
      ∧ (matches_environments ⟨"a.tar.gz", some ">=3.6.*", none, false, [], [], "", none⟩ pyvs plats
        = matches_environments ⟨"a.tar.gz", some ">=3.6", none, false, [], [], "", none⟩ pyvs plats)
      ∧ (matches_environments ⟨"a.tar.gz", some "not a specifier", none, false, [], [], "", none⟩
          pyvs plats = Except.ok false) := by
  intro pyvs plats
  exact ⟨rfl, rfl, rfl⟩

/-- C10: with no configured environments `is_requirement_relevant` is true
even for a marked requirement; an unmarked requirement is relevant
regardless of the environments; and a requirement can only be irrelevant
when it has a marker and at least one environment is configured. -/
theorem c10_marker_relevance :
    ∀ (req : Requirement) (envs : List (List (String × String))) (extras : List String),
      (is_requirement_relevant req [] extras = true)
      ∧ (req.marker = none → is_requirement_relevant req envs extras = true)
      ∧ (is_requirement_relevant req envs extras = false →
          envs ≠ [] ∧ ∃ m, req.marker = some m) := by
  intro req envs extras
  refine ⟨?_, ?_, ?_⟩
  · unfold is_requirement_relevant
    cases req.marker <;> simp
  · intro h
    unfold is_requirement_relevant
    rw [h]
  · intro h
    unfold is_requirement_relevant at h
    cases hm : req.marker with
    | none => rw [hm] at h; cases h
    | some m =>
      rw [hm] at h
      refine ⟨?_, m, rfl⟩
      intro he
      subst he
      simp at h

/-- Input for the C10 witness: a marked requirement whose marker never
evaluates true. -/
def wMarkedReq : Requirement :=
  ⟨"baz", [], [], some ⟨"sys_platform == win32", fun _ => false⟩⟩

theorem c10_marker_relevance_witness :
    is_requirement_relevant ⟨"foo", [], [], none⟩ [[("os_name", "posix")]] [] = true
    ∧ ([[("os_name", "posix")]] : List (List (String × String))) ≠ []
    ∧ ∃ m, wMarkedReq.marker = some m :=
  ⟨(c10_marker_relevance ⟨"foo", [], [], none⟩ [[("os_name", "posix")]] []).2.1 rfl,
    (c10_marker_relevance wMarkedReq [[("os_name", "posix")]] []).2.2 rfl⟩

/-- A `_mirror` stub that fails with HTTP 500 for every requirement. -/
def m500 : String → Except NetErr (Option (List String)) :=
  fun _ => Except.error (NetErr.http 500 "Internal Server Error")

/-- C7 counterexample: the claim says a transport error with a status other
than 404 propagates, but `Mirrorer.mirror` catches every
`urllib.error.HTTPError` — here a 500 is swallowed and the requirement is
treated as missing (`ok ()`), not propagated. -/
theorem c7_http_counterexample :
    m500 "somepkg" = Except.error (NetErr.http 500 "Internal Server Error")
    ∧ (500 : Nat) ≠ 404
    ∧ Mirrorer.mirror m500 7 "somepkg" = Except.ok () := by
  exact ⟨rfl, by decide, rfl⟩

/-- C7 (amended): an `HTTPError` with any status — 404 or otherwise — while
fetching the index entry of a top-level requirement is caught and logged
and the requirement treated as missing; only non-HTTP transport errors
propagate out of `Mirrorer.mirror`. -/
theorem c7_http_handling :
    ∀ (m : String → Except NetErr (Option (List String))) (fuel : Nat) (req : String),
      (∀ c s, m req = Except.error (NetErr.http c s) →
        Mirrorer.mirror m fuel req = Except.ok ())
      ∧ (∀ s, m req = Except.error (NetErr.other s) →
        Mirrorer.mirror m fuel req = Except.error (NetErr.other s)) := by
  intro m fuel req
  constructor
  · intro c s h
    unfold Mirrorer.mirror
    rw [h]
  · intro s h
    unfold Mirrorer.mirror
    rw [h]

theorem c7_http_handling_witness :
    Mirrorer.mirror m500 3 "pkg" = Except.ok ()
    ∧ Mirrorer.mirror (fun _ => Except.error (NetErr.other "URLError")) 3 "pkg"
        = Except.error (NetErr.other "URLError") :=
  ⟨(c7_http_handling m500 3 "pkg").1 500 "Internal Server Error" rfl,
    (c7_http_handling (fun _ => Except.error (NetErr.other "URLError")) 3 "pkg").2 "URLError" rfl⟩

/-! ### File-system helper lemmas -/

theorem ne_hash_sidecar (p : String) : p ≠ p ++ ".hash" := by
  intro h
  have hl := congrArg String.length h
  rw [String.length_append] at hl
  have h5 : ".hash".length = 5 := rfl
  omega

theorem fsWrite_self (fs : FS) (p c : String) : fsWrite fs p c p = some ⟨c, none, none⟩ := by
  simp [fsWrite]

theorem fsWrite_ne (fs : FS) (p q c : String) (h : q ≠ p) : fsWrite fs p c q = fs q := by
  simp [fsWrite, h]

theorem fsRemove_self (fs : FS) (p : String) : fsRemove fs p p = none := by
  simp [fsRemove]

theorem fsRemove_ne (fs : FS) (p q : String) (h : q ≠ p) : fsRemove fs p q = fs q := by
  simp [fsRemove, h]

/-- `touch_file` never changes a file's content. -/
theorem touch_file_content (fs : FS) (p : String) (f : FileRec) (q : String) (e : FSEnt)
    (h : fs q = some e) :
    ∃ e2, touch_file fs p f q = some e2 ∧ e2.content = e.content := by
  unfold touch_file
  cases f.uploadTime with
  | none => exact ⟨e, h, rfl⟩
  | some ts =>
    by_cases hp : p == ""
    · simp [hp]
      exact ⟨e, h, rfl⟩
    · simp only [hp, Bool.false_eq_true, if_false, fsUtime]
      by_cases hq : q == p
      · simp [hq, h]
      · simp [hq, h]

/-- The cached branch of `_download_file`: the target exists and its hash
matches, so the call only rewrites the sidecar and stamps the time. -/
theorem download_file_cached (hash : String → String → String) (net : String → Option String)
    (f : FileRec) (target alg : String) (fs : FS) (ent : FSEnt) (pr : String × String)
    (hfind : f.hashes.find? (fun kv => kv.1 == alg) = some pr)
    (hfs : fs target = some ent)
    (hh : hash alg ent.content = pr.2) :
    download_file hash net f target alg fs =
      ⟨touch_file (fsWrite fs (target ++ ".hash") (alg ++ "=" ++ pr.2)) target f,
        false, none⟩ := by
  unfold download_file
  rw [hfind]
  simp only [hfs, hash_file, hh, beq_self_eq_true, if_true]

/-- C6: if the target already exists and its bytes hash to the declared
digest, `_download_file` issues no HTTP request and reports no error; when
an upload time is present the file's atime and mtime are stamped to it;
and a second call on the resulting state again issues no HTTP request. -/
theorem c6_download_idempotent (hash : String → String → String)
    (net : String → Option String) (f : FileRec) (target alg : String) (fs : FS)
    (ent : FSEnt) (pr : String × String)
    (hfind : f.hashes.find? (fun kv => kv.1 == alg) = some pr)
    (hfs : fs target = some ent)
    (hh : hash alg ent.content = pr.2) :
    ((download_file hash net f target alg fs).usedNet = false
      ∧ (download_file hash net f target alg fs).error = none)
    ∧ (∀ ts, f.uploadTime = some ts → target ≠ "" →
        (download_file hash net f target alg fs).fs target
          = some ⟨ent.content, some ts, some ts⟩)
    ∧ (download_file hash net f target alg
        (download_file hash net f target alg fs).fs).usedNet = false := by
  have hcached := download_file_cached hash net f target alg fs ent pr hfind hfs hh
  have hside : fsWrite fs (target ++ ".hash") (alg ++ "=" ++ pr.2) target = some ent := by
    rw [fsWrite_ne _ _ _ _ (ne_hash_sidecar target)]
    exact hfs
  refine ⟨⟨by rw [hcached], by rw [hcached]⟩, ?_, ?_⟩
  · intro ts hts htarget
    rw [hcached]
    simp only [touch_file, hts]
    have hpe : (target == "") = false := by
      simp [htarget]
    simp only [hpe, Bool.false_eq_true, if_false, fsUtime, beq_self_eq_true, if_true, hside]
    rfl
  · obtain ⟨e2, he2, hc2⟩ :=
      touch_file_content (fsWrite fs (target ++ ".hash") (alg ++ "=" ++ pr.2)) target f
        target ent hside
    have hh2 : hash alg e2.content = pr.2 := by rw [hc2, hh]
    have hfs2 : (download_file hash net f target alg fs).fs target = some e2 := by
      rw [hcached]
      exact he2
    rw [download_file_cached hash net f target alg _ e2 pr hfind hfs2 hh2]

/-- Input pieces for the C6 witness. -/
def wHash : String → String → String := fun a c => a ++ ":" ++ c

def wFileC6 : FileRec :=
  ⟨"x-1.0.whl", none, none, true, [1, 0], [("sha256", "sha256:DATA")], "http:u", some 99⟩

def wFsC6 : FS := fun q => if q == "idx/x/x-1.0.whl" then some ⟨"DATA", none, none⟩ else none

theorem c6_download_idempotent_witness :
    ((download_file wHash (fun _ => none) wFileC6 "idx/x/x-1.0.whl" "sha256" wFsC6).usedNet = false
      ∧ (download_file wHash (fun _ => none) wFileC6 "idx/x/x-1.0.whl" "sha256" wFsC6).error = none)
    ∧ (download_file wHash (fun _ => none) wFileC6 "idx/x/x-1.0.whl" "sha256"
        (download_file wHash (fun _ => none) wFileC6 "idx/x/x-1.0.whl" "sha256" wFsC6).fs).usedNet
        = false := by
  have h := c6_download_idempotent wHash (fun _ => none) wFileC6 "idx/x/x-1.0.whl" "sha256"
    wFsC6 ⟨"DATA", none, none⟩ ("sha256", "sha256:DATA") rfl rfl rfl
  exact ⟨h.1, h.2.2⟩

/-- C9: on a digest mismatch the target is deleted but the `<target>.hash`
sidecar — already written with the digest of the rejected bytes — is left
behind, so after the error the sidecar exists with no target file. -/
theorem c9_orphan_sidecar (hash : String → String → String) (net : String → Option String)
    (f : FileRec) (target alg : String) (fs : FS) (pr : String × String) (bs : String)
    (hfind : f.hashes.find? (fun kv => kv.1 == alg) = some pr)
    (hfs : fs target = none)
    (hnet : net f.url = some bs)
    (hmiss : hash alg bs ≠ pr.2) :
    (∃ e, (download_file hash net f target alg fs).error = some e)
    ∧ (download_file hash net f target alg fs).fs target = none
    ∧ (download_file hash net f target alg fs).fs (target ++ ".hash")
        = some ⟨alg ++ "=" ++ hash alg bs, none, none⟩ := by
  have hne : (hash alg bs != pr.2) = true := by
    simp [hmiss]
  unfold download_file
  rw [hfind]
  simp only [hfs]
  unfold dlFetch
  rw [hnet]
  simp only [hash_file, fsWrite_self, hne, if_true]
  refine ⟨⟨_, rfl⟩, ?_, ?_⟩
  · exact fsRemove_self _ _
  · rw [fsRemove_ne _ _ _ (Ne.symm (ne_hash_sidecar target))]
    exact fsWrite_self _ _ _

def wFileC9 : FileRec :=
  ⟨"y-2.0.whl", none, none, true, [2, 0], [("sha256", "sha256:GOOD")], "http:y", none⟩

theorem c9_orphan_sidecar_witness :
    (∃ e, (download_file wHash (fun _ => some "BAD") wFileC9 "idx/y/y-2.0.whl" "sha256"
        (fun _ => none)).error = some e)
    ∧ (download_file wHash (fun _ => some "BAD") wFileC9 "idx/y/y-2.0.whl" "sha256"
        (fun _ => none)).fs "idx/y/y-2.0.whl" = none
    ∧ (download_file wHash (fun _ => some "BAD") wFileC9 "idx/y/y-2.0.whl" "sha256"
        (fun _ => none)).fs "idx/y/y-2.0.whl.hash"
        = some ⟨"sha256=sha256:BAD", none, none⟩ :=
  c9_orphan_sidecar wHash (fun _ => some "BAD") wFileC9 "idx/y/y-2.0.whl" "sha256"
    (fun _ => none) ("sha256", "sha256:GOOD") "BAD" rfl rfl rfl (by decide)

/-- C5: the claim's fallback "else the first algorithm the index exposes"
does not happen in the code: `fileinfo["hashes"].keys()[0]` raises
`TypeError` in Python 3, so a file whose index entry lacks a sha256 digest
fails per-file before any download; the per-release loop still catches the
failure and continues with the remaining files. -/
theorem c5_hashalg_bug :
    (∀ (hash : String → String → String) (net : String → Option String)
        (depsOf : FileRec → List String) (ip rn : String) (f : FileRec) (fs : FS) (d : String),
      f.hashes = [("md5", d)] →
      process_file hash net depsOf ip rn f fs =
        (fs, Except.error "TypeError: dict_keys object is not subscriptable"))
    ∧ (∀ (step : FileRec → FS → FS × Except String (List String)) (rest : List FileRec)
        (g : FileRec) (fs0 fs1 : FS) (e : String),
      step g fs0 = (fs1, Except.error e) →
      process_files step (g :: rest) fs0 =
        ((process_files step rest fs1).1, (process_files step rest fs1).2.1,
          (process_files step rest fs1).2.2 + 1)) := by
  constructor
  · intro hash net depsOf ip rn f fs d hhashes
    unfold process_file select_hashalg
    rw [hhashes]
    rfl
  · intro step rest g fs0 fs1 e hstep
    have hstepEq : process_files step (g :: rest) fs0 =
        match step g fs0 with
        | (fs2, Except.ok ds) =>
          let r := process_files step rest fs2
          (r.1, ds ++ r.2.1, r.2.2)
        | (fs2, Except.error _) =>
          let r := process_files step rest fs2
          (r.1, r.2.1, r.2.2 + 1) := rfl
    rw [hstepEq, hstep]

def wFileC5 : FileRec :=
  ⟨"z-1.0.tar.gz", none, none, false, [1, 0], [("md5", "abc")], "http:z", none⟩

theorem c5_hashalg_bug_witness :
    process_file wHash (fun _ => none) (fun _ => []) "idx" "z" wFileC5 (fun _ => none) =
      ((fun _ => none), Except.error "TypeError: dict_keys object is not subscriptable")
    ∧ process_files (fun _ fs => (fs, Except.error "boom")) [wFileC5] (fun _ => none) =
        ((process_files (fun _ fs => (fs, Except.error "boom")) [] (fun _ => none)).1,
          (process_files (fun _ fs => (fs, Except.error "boom")) [] (fun _ => none)).2.1,
          (process_files (fun _ fs => (fs, Except.error "boom")) [] (fun _ => none)).2.2 + 1) :=
  ⟨c5_hashalg_bug.1 wHash (fun _ => none) (fun _ => []) "idx" "z" wFileC5 (fun _ => none)
      "abc" rfl,
    c5_hashalg_bug.2 (fun _ fs => (fs, Except.error "boom")) [] wFileC5
      (fun _ => none) (fun _ => none) "boom" rfl⟩

/-! ### Cache (C4) lemmas -/

theorem opRender_len_pos (op : ReqOp) : 1 ≤ op.render.length := by
  cases op <;> decide

theorem renderSpecs_len_pos (s : ReqOp × String) (rest : List (ReqOp × String)) :
    1 ≤ (renderSpecs (s :: rest)).length := by
  have hop := opRender_len_pos s.1
  cases rest with
  | nil =>
    simp only [renderSpecs, String.length_append]
    omega
  | cons s2 rest2 =>
    simp only [renderSpecs, String.length_append]
    omega

/-- A non-simple requirement renders to something longer than its name. -/
theorem render_ne_name_of_not_simple (r : Requirement) (h : is_simple_case r = false) :
    r.render ≠ r.name := by
  intro hEq
  have hl := congrArg String.length hEq
  unfold Requirement.render at hl
  rw [String.length_append, String.length_append, String.length_append] at hl
  unfold is_simple_case at h
  by_cases hm : r.marker.isNone
  · by_cases he : r.extras.isEmpty
    · -- not simple must come from the specifier list
      rw [if_pos (by rw [hm, he]; rfl)] at h
      by_cases hsp : r.specifier.isEmpty
      · rw [if_pos hsp] at h
        cases h
      · cases hspec : r.specifier with
        | nil => rw [hspec] at hsp; simp at hsp
        | cons s rest =>
          have hlen := renderSpecs_len_pos s rest
          rw [hspec] at hl
          have hm2 : r.marker = none := Option.isNone_iff_eq_none.mp hm
          rw [hm2] at hl
          simp only [he, if_true, String.length_empty] at hl
          omega
    · -- marker absent but extras nonempty: the `[...]` chunk is nonempty
      rw [if_neg he, String.length_append, String.length_append] at hl
      have hbr1 : ("[" : String).length = 1 := rfl
      have hbr2 : ("]" : String).length = 1 := rfl
      omega
  · have : ∃ m, r.marker = some m := by
      cases hmm : r.marker with
      | none => rw [hmm] at hm; simp at hm
      | some m => exact ⟨m, rfl⟩
    obtain ⟨m, hmm⟩ := this
    rw [hmm] at hl
    simp only at hl
    rw [String.length_append] at hl
    have h2 : ("; " : String).length = 2 := rfl
    omega

/-- C4: `add` then `check` on the same requirement returns true; the cache
key is the bare canonical name exactly when the requirement has no marker,
no extras, and an empty or purely lower-bounded (`>`/`>=`) specifier set;
and a later simple-case requirement for the same name is reported as
already processed even with a different specifier. -/
theorem c4_processed_set :
    ∀ (c : Cache) (r r1 r2 : Requirement),
      ((c.add r).check r = true)
      ∧ (cacheKey r = r.name ↔
          (r.marker = none ∧ r.extras = [] ∧
            (r.specifier = [] ∨ ∀ s ∈ r.specifier, s.1 = ReqOp.gt ∨ s.1 = ReqOp.ge)))
      ∧ (is_simple_case r1 = true → is_simple_case r2 = true → r1.name = r2.name →
          (c.add r1).check r2 = true) := by
  intro c r r1 r2
  refine ⟨?_, ⟨?_, ?_⟩, ?_⟩
  · unfold Cache.add Cache.check
    cases hs : is_simple_case r <;> simp [List.contains]
  · intro hkey
    unfold cacheKey at hkey
    cases hs : is_simple_case r with
    | false =>
      rw [hs] at hkey
      simp only [Bool.false_eq_true, if_false] at hkey
      exact absurd hkey (render_ne_name_of_not_simple r hs)
    | true =>
      unfold is_simple_case at hs
      by_cases hme : r.marker.isNone && r.extras.isEmpty
      · rw [if_pos hme] at hs
        have hm : r.marker = none :=
          Option.isNone_iff_eq_none.mp (Bool.and_elim_left hme)
        have he : r.extras = [] :=
          List.isEmpty_iff.mp (Bool.and_elim_right hme)
        refine ⟨hm, he, ?_⟩
        by_cases hsp : r.specifier.isEmpty
        · exact Or.inl (List.isEmpty_iff.mp hsp)
        · rw [if_neg (by simp [hsp])] at hs
          right
          intro s hsmem
          have := List.all_eq_true.mp hs s hsmem
          rcases Bool.or_eq_true_iff.mp this with h1 | h1
          · exact Or.inl (eq_of_beq h1)
          · exact Or.inr (eq_of_beq h1)
      · rw [if_neg hme] at hs
        cases hs
  · intro ⟨hm, he, hsp⟩
    have hs : is_simple_case r = true := by
      unfold is_simple_case
      rw [if_pos (by rw [hm, he]; rfl)]
      cases hsp with
      | inl h0 => rw [h0]; rfl
      | inr hall =>
        cases hspec : r.specifier with
        | nil => rfl
        | cons s rest =>
          simp only [List.isEmpty_cons, Bool.false_eq_true, if_false]
          apply List.all_eq_true.mpr
          intro x hx
          rcases hall x (by rw [hspec]; exact hx) with h1 | h1
          · simp [h1]
          · simp [h1]
    unfold cacheKey
    rw [hs]
    simp
  · intro h1 h2 hname
    unfold Cache.add Cache.check
    rw [h1, h2]
    simp only [if_true]
    rw [hname]
    simp [List.contains]

def wReqGe : Requirement := ⟨"foo", [], [(ReqOp.ge, "1.0")], none⟩

def wReqGt : Requirement := ⟨"foo", [], [(ReqOp.gt, "2")], none⟩

theorem c4_processed_set_witness :
    ((Cache.add ⟨[]⟩ wReqGe).check wReqGe = true)
    ∧ (cacheKey wReqGe = wReqGe.name)
    ∧ ((Cache.add ⟨[]⟩ wReqGe).check wReqGt = true) :=
  ⟨(c4_processed_set ⟨[]⟩ wReqGe wReqGe wReqGt).1,
    (c4_processed_set ⟨[]⟩ wReqGe wReqGe wReqGt).2.1.mpr
      ⟨rfl, rfl, Or.inr (by intro s hs; simp [wReqGe] at hs; rw [hs]; exact Or.inr rfl)⟩,
    (c4_processed_set ⟨[]⟩ wReqGe wReqGe wReqGt).2.2 rfl rfl rfl⟩

/-! ### Tag-satisfaction predicates for C1 -/

/-- `SpecifierSet(">=" + iv).contains(v)` as a pure predicate on the two
strings (false when either fails to parse). -/
def verGeStr (v iv : String) : Bool :=
  match parseVersion iv with
  | none => false
  | some w =>
    match parseVersion v with
    | some pv => verGe pv w
    | none => false

/-- A tag satisfying the environment set exactly as the claim states it:
interpreter prefix `cp`/`py`, the set `>= <version>` contains some
configured python version, and platform `any` or a regex match. -/
def tagMatchesClaim (pyvs : List String) (plats : List Plat) (t : Tag) : Bool :=
  ((parse_interpreter t.interpreter).1 == "py"
      || (parse_interpreter t.interpreter).1 == "cp") &&
  (match (parse_interpreter t.interpreter).2 with
   | none => false
   | some iv =>
     (pyvs.any (fun v => verGeStr v iv)) &&
     (t.platform == "any" || plats.any (fun p => p t.platform)))

/-- The tag predicate the code actually implements: as above, but the
interpreter-version compatibility check is bypassed when the version is
exactly `"3"`. -/
def tagMatchesC1 (pyvs : List String) (plats : List Plat) (t : Tag) : Bool :=
  ((parse_interpreter t.interpreter).1 == "py"
      || (parse_interpreter t.interpreter).1 == "cp") &&
  (match (parse_interpreter t.interpreter).2 with
   | none => false
   | some iv =>
     (iv == "3" || pyvs.any (fun v => verGeStr v iv)) &&
     (t.platform == "any" || plats.any (fun p => p t.platform)))

/-- A `py3`/`any` wheel: its tag bypasses the version-compatibility check. -/
def cxWheel : FileRec :=
  ⟨"foo-1.0-py3-none-any.whl", none, some [⟨"py3", "none", "any"⟩], true, [1, 0], [], "", none⟩

/-- C1 counterexample: with only Python 2.7 configured, the filter accepts
the `py3-none-any` wheel (the code skips the version check for interpreter
version `"3"`) although no tag satisfies the claim's three conditions —
`>=3` does not contain 2.7. -/
theorem c1_tag_filter_counterexample :
    matches_environments cxWheel ["2.7"] [] = Except.ok true
    ∧ (cxWheel.tags.getD []).any (tagMatchesClaim ["2.7"] []) = false := by
  exact ⟨rfl, rfl⟩

theorem anyGe_ok (w : List Nat) : ∀ (pyvs : List String),
    (∀ v ∈ pyvs, (parseVersion v).isSome) →
    anyGe w pyvs = Except.ok (pyvs.any (fun v =>
      match parseVersion v with
      | some pv => verGe pv w
      | none => false)) := by
  intro pyvs
  induction pyvs with
  | nil => intro _; rfl
  | cons v vs ih =>
    intro h1
    obtain ⟨pv, hpv⟩ := Option.isSome_iff_exists.mp (h1 v (List.mem_cons_self v vs))
    have ihvs := ih (fun u hu => h1 u (List.mem_cons_of_mem v hu))
    unfold anyGe
    rw [hpv, List.any_cons, hpv]
    cases hge : verGe pv w with
    | true => simp [hge]
    | false => simp [hge, ihvs]

theorem tagsLoop_any (pyvs : List String) (plats : List Plat) : ∀ (ts : List Tag),
    (∀ v ∈ pyvs, (parseVersion v).isSome) →
    (∀ t ∈ ts, ((parse_interpreter t.interpreter).1 = "py"
        ∨ (parse_interpreter t.interpreter).1 = "cp") →
      ∃ iv w, (parse_interpreter t.interpreter).2 = some iv ∧ parseVersion iv = some w) →
    tagsLoop pyvs plats ts = Except.ok (ts.any (tagMatchesC1 pyvs plats)) := by
  intro ts
  induction ts with
  | nil => intro _ _; rfl
  | cons t rest ih =>
    intro h1 h2
    have ihrest := ih h1 (fun u hu => h2 u (List.mem_cons_of_mem t hu))
    have hstep : tagsLoop pyvs plats (t :: rest) =
        (if !((parse_interpreter t.interpreter).1 == "py"
            || (parse_interpreter t.interpreter).1 == "cp") then
          tagsLoop pyvs plats rest
        else
          match (parse_interpreter t.interpreter).2 with
          | none => Except.error ("Unexpected interpreter tag " ++ t.interpreter)
          | some iv =>
            match parseVersion iv with
            | none => Except.error ("InvalidSpecifier: >=" ++ iv)
            | some w =>
              match anyGe w pyvs with
              | Except.error e => Except.error e
              | Except.ok matched =>
                if iv != "3" && !matched then tagsLoop pyvs plats rest
                else if t.platform == "any" then Except.ok true
                else if plats.any (fun p => p t.platform) then Except.ok true
                else tagsLoop pyvs plats rest) := rfl
    rw [List.any_cons, hstep]
    by_cases hname : ((parse_interpreter t.interpreter).1 == "py"
        || (parse_interpreter t.interpreter).1 == "cp") = true
    · obtain ⟨iv, w, hiv, hw⟩ := h2 t (List.mem_cons_self t rest) (by
        rcases Bool.or_eq_true_iff.mp hname with h | h
        · exact Or.inl (eq_of_beq h)
        · exact Or.inr (eq_of_beq h))
      have hA : ∀ v, verGeStr v iv =
          (match parseVersion v with | some pv => verGe pv w | none => false) := by
        intro v
        unfold verGeStr
        rw [hw]
      have hmc : tagMatchesC1 pyvs plats t =
          ((iv == "3" || pyvs.any (fun v =>
              match parseVersion v with | some pv => verGe pv w | none => false)) &&
            (t.platform == "any" || plats.any (fun p => p t.platform))) := by
        unfold tagMatchesC1
        rw [hname, hiv, Bool.true_and]
        simp only [hA]
      simp only [hname, Bool.not_true, Bool.false_eq_true, if_false, hiv, hw,
        anyGe_ok w pyvs h1, hmc]
      by_cases h3 : (iv != "3" && !(pyvs.any (fun v =>
          match parseVersion v with | some pv => verGe pv w | none => false))) = true
      · rw [if_pos h3, ihrest]
        rcases Bool.and_eq_true_iff.mp h3 with ⟨hne3, hnA⟩
        have hiv3 : (iv == "3") = false := by
          rw [bne_iff_ne] at hne3
          simp [hne3]
        have hAf : (pyvs.any (fun v =>
            match parseVersion v with | some pv => verGe pv w | none => false)) = false := by
          rw [Bool.not_eq_true'] at hnA
          exact hnA
        rw [hiv3, hAf, Bool.false_or, Bool.false_and, Bool.false_or]
      · rw [if_neg h3]
        have hor : (iv == "3" || pyvs.any (fun v =>
            match parseVersion v with | some pv => verGe pv w | none => false)) = true := by
          rcases Bool.and_eq_false_iff.mp (eq_false_of_ne_true h3) with h | h
          · rw [bne_eq_false_iff_eq] at h
            rw [h]
            simp
          · rw [Bool.not_eq_false'] at h
            simp [h]
        rw [hor, Bool.true_and]
        by_cases hany : (t.platform == "any") = true
        · rw [if_pos hany, hany, Bool.true_or, Bool.true_or]
        · have hany' : (t.platform == "any") = false := eq_false_of_ne_true hany
          rw [if_neg hany, hany', Bool.false_or]
          by_cases hplat : (plats.any (fun p => p t.platform)) = true
          · rw [if_pos hplat, hplat, Bool.true_or]
          · have hplat' : (plats.any (fun p => p t.platform)) = false := eq_false_of_ne_true hplat
            rw [if_neg hplat, hplat', Bool.false_or, ihrest]
    · have hname' : ((parse_interpreter t.interpreter).1 == "py"
          || (parse_interpreter t.interpreter).1 == "cp") = false := eq_false_of_ne_true hname
      have hmc : tagMatchesC1 pyvs plats t = false := by
        unfold tagMatchesC1
        rw [hname', Bool.false_and]
      rw [hname', Bool.not_false, if_pos rfl, ihrest, hmc, Bool.false_or]

/-- C1 (amended): for a wheel with no `requires-python`, at least one tag,
every configured python version parseable and every `py`/`cp` tag carrying
a parseable version, the environment filter accepts the file iff some tag
has (a) an interpreter prefix `cp` or `py`, (b) an interpreter version
that is exactly `"3"` **or** whose specifier set `>= <version>` contains
at least one configured python version, and (c) a platform equal to `any`
or fully matching at least one configured platform regex. -/
theorem c1_tag_filter (f : FileRec) (ts : List Tag) (pyvs : List String) (plats : List Plat)
    (hrp : f.requiresPython = none) (htags : f.tags = some ts) (hne : ts ≠ [])
    (h1 : ∀ v ∈ pyvs, (parseVersion v).isSome)
    (h2 : ∀ t ∈ ts, ((parse_interpreter t.interpreter).1 = "py"
        ∨ (parse_interpreter t.interpreter).1 = "cp") →
      ∃ iv w, (parse_interpreter t.interpreter).2 = some iv ∧ parseVersion iv = some w) :
    matches_environments f pyvs plats = Except.ok true
      ↔ ts.any (tagMatchesC1 pyvs plats) = true := by
  unfold matches_environments
  rw [hrp, htags]
  have hempty : ts.isEmpty = false := by
    cases ts with
    | nil => exact absurd rfl hne
    | cons a l => rfl
  simp only [reqPyCheck, hempty, Bool.false_eq_true, if_false,
    tagsLoop_any pyvs plats ts h1 h2, Except.ok.injEq]

def wTagC1 : Tag := ⟨"cp310", "cp310", "manylinux_2_17_x86_64"⟩

def wWheelC1 : FileRec :=
  ⟨"w-1.0-cp310-cp310-manylinux_2_17_x86_64.whl", none, some [wTagC1], true, [1, 0], [], "", none⟩

def wPlatsC1 : List Plat := [fun s => s == "manylinux_2_17_x86_64"]

theorem c1_tag_filter_witness :
    matches_environments wWheelC1 ["3.11"] wPlatsC1 = Except.ok true :=
  (c1_tag_filter wWheelC1 [wTagC1] ["3.11"] wPlatsC1 rfl rfl (by simp)
    (by intro v hv; simp at hv; rw [hv]; rfl)
    (by
      intro t ht _
      simp [wTagC1] at ht
      rw [ht]
      exact ⟨"3.10", [3, 10], rfl, rfl⟩)).mpr rfl

/-! ### Selection lemmas for C2 -/

theorem filterME_mem {α ε : Type} (p : α → Except ε Bool) :
    ∀ (l out : List α), filterME p l = Except.ok out → ∀ x ∈ out, p x = Except.ok true := by
  intro l
  induction l with
  | nil =>
    intro out h x hx
    injection h with h
    rw [← h] at hx
    cases hx
  | cons a as ih =>
    intro out h x hx
    unfold filterME at h
    cases hp : p a with
    | error e => rw [hp] at h; cases h
    | ok b =>
      rw [hp] at h
      cases hr : filterME p as with
      | error e => rw [hr] at h; cases h
      | ok r =>
        rw [hr] at h
        injection h with h
        cases b with
        | true =>
          rw [← h] at hx
          cases hx with
          | head => exact hp
          | tail _ hmem => exact ih r hr x hmem
        | false =>
          rw [← h] at hx
          exact ih r hr x hx

theorem pyLoop_true (ss : List Spec) : ∀ (pyvs : List String),
    pyLoop ss pyvs = Except.ok true →
    ∀ v ∈ pyvs, ∃ pv, parseVersion v = some pv ∧ specSetContains ss pv = true := by
  intro pyvs
  induction pyvs with
  | nil => intro _ v hv; cases hv
  | cons v vs ih =>
    intro h u hu
    unfold pyLoop at h
    cases hp : parseVersion v with
    | none => rw [hp] at h; cases h
    | some pv =>
      simp only [hp] at h
      cases hc : specSetContains ss pv with
      | false => simp [hc] at h
      | true =>
        simp only [hc, if_pos] at h
        cases hu with
        | head => exact ⟨pv, hp, hc⟩
        | tail _ hmem => exact ih h u hmem

theorem reqPyCheck_true (o : Option String) (pyvs : List String) :
    reqPyCheck o pyvs = Except.ok true → ∀ v ∈ pyvs, reqPyAccepts o v = true := by
  intro hc v hv
  cases o with
  | none => rfl
  | some r =>
    simp only [reqPyCheck] at hc
    simp only [reqPyAccepts]
    by_cases hr0 : (r == "") = true
    · simp only [hr0, if_true]
    · simp only [hr0, Bool.false_eq_true, if_false] at hc ⊢
      cases hps : parseSpecSet (starRepair (if isdigitStr r = true then "==" ++ r else r)) with
      | none => simp only [hps] at hc; cases hc
      | some ss =>
        simp only [hps] at hc
        obtain ⟨pv, hpv, hcont⟩ := pyLoop_true ss pyvs hc v hv
        simp only [hpv, hcont]

theorem matches_true_reqPy (f : FileRec) (pyvs : List String) (plats : List Plat)
    (h : matches_environments f pyvs plats = Except.ok true) :
    ∀ v ∈ pyvs, reqPyAccepts f.requiresPython v = true := by
  unfold matches_environments at h
  cases hc : reqPyCheck f.requiresPython pyvs with
  | error e => rw [hc] at h; cases h
  | ok b =>
    cases b with
    | false => rw [hc] at h; cases h
    | true => exact reqPyCheck_true f.requiresPython pyvs hc

theorem find_first_ok (v : String) (p : Plat) : ∀ (files : List FileRec) (f : FileRec),
    find_first_matching v p files = Except.ok (some f) →
    matches_environments f [v] [p] = Except.ok true := by
  intro files
  induction files with
  | nil => intro f h; cases h
  | cons g gs ih =>
    intro f h
    unfold find_first_matching at h
    cases hm : matches_environments g [v] [p] with
    | error e => rw [hm] at h; cases h
    | ok b =>
      cases b with
      | true =>
        rw [hm] at h
        injection h with h
        injection h with h
        rw [← h]
        exact hm
      | false =>
        rw [hm] at h
        exact ih f h

/-- A file is good for the configured grid when some cell accepts it. -/
def GoodSel (pyvs : List String) (plats : List Plat) (f : FileRec) : Prop :=
  ∃ v ∈ pyvs, ∃ p ∈ plats, matches_environments f [v] [p] = Except.ok true

theorem envPairs_mem (pyvs : List String) (plats : List Plat) (vp : String × Plat)
    (h : vp ∈ envPairs pyvs plats) : vp.1 ∈ pyvs ∧ vp.2 ∈ plats := by
  unfold envPairs at h
  rw [List.mem_flatMap] at h
  obtain ⟨v, hv, hmem⟩ := h
  rw [List.mem_map] at hmem
  obtain ⟨p, hp, heq⟩ := hmem
  rw [← heq]
  exact ⟨hv, hp⟩

theorem selLoop_good (pyvs : List String) (plats : List Plat) (nonW wh : List FileRec) :
    ∀ (prs : List (String × Plat)) (sel out : List FileRec),
      (∀ vp ∈ prs, vp.1 ∈ pyvs ∧ vp.2 ∈ plats) →
      (∀ f ∈ sel, GoodSel pyvs plats f) →
      selLoop nonW wh prs sel = Except.ok out →
      ∀ f ∈ out, GoodSel pyvs plats f := by
  intro prs
  induction prs with
  | nil =>
    intro sel out _ hsel h
    injection h with h
    rw [← h]
    exact hsel
  | cons vp rest ih =>
    intro sel out hprs hsel h
    obtain ⟨v, p⟩ := vp
    unfold selLoop at h
    cases hb1 : find_first_matching v p nonW with
    | error e => rw [hb1] at h; cases h
    | ok bnw =>
      simp only [hb1] at h
      cases hb2 : find_first_matching v p wh with
      | error e => rw [hb2] at h; cases h
      | ok bw =>
        simp only [hb2] at h
        have hvp : v ∈ pyvs ∧ p ∈ plats := hprs (v, p) (List.mem_cons_self _ _)
        have hsel1 : ∀ f ∈ (match bnw with
            | some f => if sel.contains f then sel else sel ++ [f]
            | none => sel), GoodSel pyvs plats f := by
          cases bnw with
          | none => exact hsel
          | some g =>
            by_cases hg : sel.contains g
            · simp only [hg, if_true]
              exact hsel
            · simp only [hg, Bool.false_eq_true, if_false]
              intro f hf
              rw [List.mem_append] at hf
              cases hf with
              | inl hf => exact hsel f hf
              | inr hf =>
                rw [List.mem_singleton] at hf
                rw [hf]
                exact ⟨v, hvp.1, p, hvp.2, find_first_ok v p nonW g hb1⟩
        have hsel2 : ∀ f ∈ (match bw with
            | some f =>
              if (match bnw with
                  | some f2 => if sel.contains f2 then sel else sel ++ [f2]
                  | none => sel).contains f then
                (match bnw with
                  | some f2 => if sel.contains f2 then sel else sel ++ [f2]
                  | none => sel)
              else (match bnw with
                  | some f2 => if sel.contains f2 then sel else sel ++ [f2]
                  | none => sel) ++ [f]
            | none => (match bnw with
                | some f2 => if sel.contains f2 then sel else sel ++ [f2]
                | none => sel)), GoodSel pyvs plats f := by
          cases bw with
          | none => exact hsel1
          | some g =>
            by_cases hg : (match bnw with
                | some f2 => if sel.contains f2 then sel else sel ++ [f2]
                | none => sel).contains g
            · simp only [hg, if_true]
              exact hsel1
            · simp only [hg, Bool.false_eq_true, if_false]
              intro f hf
              rw [List.mem_append] at hf
              cases hf with
              | inl hf => exact hsel1 f hf
              | inr hf =>
                rw [List.mem_singleton] at hf
                rw [hf]
                exact ⟨v, hvp.1, p, hvp.2, find_first_ok v p wh g hb2⟩
        exact ih _ out (fun u hu => hprs u (List.mem_cons_of_mem _ hu)) hsel2 h

theorem select_best_good (pyvs : List String) (plats : List Plat) (vfs out : List FileRec)
    (h : select_best_files_for_version pyvs plats vfs = Except.ok out) :
    ∀ f ∈ out, GoodSel pyvs plats f := by
  unfold select_best_files_for_version at h
  exact selLoop_good pyvs plats _ _ (envPairs pyvs plats) [] out
    (fun vp hvp => envPairs_mem pyvs plats vp hvp)
    (fun f hf => absurd hf (List.not_mem_nil f)) h

theorem groupsLoop_good (pyvs : List String) (plats : List Plat) :
    ∀ (groups : List (List Nat × List FileRec)) (out : List FileRec),
      groupsLoop pyvs plats groups = Except.ok out →
      ∀ f ∈ out, GoodSel pyvs plats f := by
  intro groups
  induction groups with
  | nil =>
    intro out h f hf
    injection h with h
    rw [← h] at hf
    cases hf
  | cons g rest ih =>
    intro out h f hf
    obtain ⟨ver, vfs⟩ := g
    unfold groupsLoop at h
    cases hb : select_best_files_for_version pyvs plats vfs with
    | error e => rw [hb] at h; cases h
    | ok best =>
      simp only [hb] at h
      cases hr : groupsLoop pyvs plats rest with
      | error e => rw [hr] at h; cases h
      | ok more =>
        simp only [hr] at h
        injection h with h
        rw [← h] at hf
        rw [List.mem_append] at hf
        cases hf with
        | inl hf => exact select_best_good pyvs plats vfs best hb f hf
        | inr hf => exact ih more hr f hf

theorem mem_insertDescLe {α : Type} (le : α → α → Bool) (y : α) :
    ∀ (l : List α) (x : α), x ∈ insertDescLe le y l ↔ x = y ∨ x ∈ l := by
  intro l
  induction l with
  | nil =>
    intro x
    simp [insertDescLe]
  | cons z zs ih =>
    intro x
    unfold insertDescLe
    by_cases hle : le y z = true
    · simp only [hle, if_true, List.mem_cons, ih]
      tauto
    · simp only [hle, Bool.false_eq_true, if_false, List.mem_cons]

theorem mem_sortDescLe {α : Type} (le : α → α → Bool) (l : List α) (x : α) :
    x ∈ sortDescLe le l ↔ x ∈ l := by
  unfold sortDescLe
  suffices h : ∀ (acc : List α), x ∈ l.foldl (fun a y => insertDescLe le y a) acc
      ↔ x ∈ acc ∨ x ∈ l by
    rw [h []]
    simp
  induction l with
  | nil => intro acc; simp
  | cons y ys ih =>
    intro acc
    rw [List.foldl_cons, ih (insertDescLe le y acc), mem_insertDescLe, List.mem_cons]
    tauto

/-- C2 (amended): with `mirror_all_wheels` — when the filter runs with the
full configured version list — every selected file's `requires-python`,
after the repairs, contains **every** configured python version; in the
default best-file mode a selected file is only guaranteed to contain the
python version of **some** configured environment cell (the one it was
selected for). -/
theorem c2_requires_python_selection :
    ∀ (files : List FileRec) (pyvs : List String) (plats : List Plat) (out : List FileRec),
      (filter_files_by_environment true files pyvs plats = Except.ok out →
        ∀ f ∈ out, ∀ v ∈ pyvs, reqPyAccepts f.requiresPython v = true)
      ∧ (filter_files_by_environment false files pyvs plats = Except.ok out →
        ∀ f ∈ out, ∃ v ∈ pyvs, reqPyAccepts f.requiresPython v = true) := by
  intro files pyvs plats out
  constructor
  · intro h f hf v hv
    unfold filter_files_by_environment at h
    rw [if_pos rfl] at h
    have hm := filterME_mem (fun g => matches_environments g pyvs plats) files out h f hf
    exact matches_true_reqPy f pyvs plats hm v hv
  · intro h f hf
    unfold filter_files_by_environment at h
    simp only [Bool.false_eq_true, if_false] at h
    cases hg : groupsLoop pyvs plats (group_files_by_version files) with
    | error e => rw [hg] at h; cases h
    | ok sel =>
      simp only [hg] at h
      injection h with h
      rw [← h] at hf
      rw [mem_sortDescLe] at hf
      obtain ⟨v, hv, p, hp, hm⟩ :=
        groupsLoop_good pyvs plats (group_files_by_version files) sel hg f hf
      refine ⟨v, hv, ?_⟩
      exact matches_true_reqPy f [v] [p] hm v (List.mem_singleton_self v)

/-- A source archive whose `requires-python` excludes Python 3.8. -/
def cxSdist : FileRec := ⟨"foo-1.0.tar.gz", some ">=3.10", none, false, [1, 0], [], "", none⟩

/-- C2 counterexample: with environments for Python 3.8 and 3.11, the
default (per-cell) selection still selects a file whose repaired
`requires-python` `>=3.10` excludes the configured 3.8 — the claim's "a
file whose repaired requires-python excludes any single configured version
is rejected" fails on the default path. -/
theorem c2_requires_python_counterexample :
    filter_files_by_environment false [cxSdist] ["3.8", "3.11"] [fun _ => true]
      = Except.ok [cxSdist]
    ∧ "3.8" ∈ ["3.8", "3.11"]
    ∧ reqPyAccepts cxSdist.requiresPython "3.8" = false := by
  exact ⟨rfl, List.mem_cons_self _ _, rfl⟩

def wSdistC2 : FileRec := ⟨"bar-1.0.tar.gz", some ">=3.6", none, false, [1, 0], [], "", none⟩

theorem c2_requires_python_selection_witness :
    reqPyAccepts wSdistC2.requiresPython "3.8" = true :=
  (c2_requires_python_selection [wSdistC2] ["3.8"] [fun _ => true] [wSdistC2]).1 rfl wSdistC2
    (List.mem_singleton_self _) "3.8" (List.mem_singleton_self _)

end Morgan
